import Mathlib

/-!
Verification of the response-construction pipeline of a minimal HTTP file
server (`HttpResponse::new` in `src/http/response.rs`).  Rust strings and
byte buffers are embedded as `List Nat` (their UTF-8 bytes), filesystem
paths as lists of component names, and the filesystem itself as a static
tree.  Fallible Rust code (`io::Result`) becomes `Except RunError`, with a
distinguished outcome for panics.
-/

/-- UTF-8 encoding of a single Unicode code point, as byte values. -/
def utf8EncodeCodepoint (c : Nat) : List Nat :=
  if c < 128 then [c]
  else if c < 2048 then [192 + c / 64, 128 + c % 64]
  else if c < 65536 then [224 + c / 4096, 128 + (c / 64) % 64, 128 + c % 64]
  else [240 + c / 262144, 128 + (c / 4096) % 64, 128 + (c / 64) % 64, 128 + c % 64]

/-- The UTF-8 bytes of a string literal, used to transcribe the Rust source's
string and byte-string literals. -/
def strBytes (s : String) : List Nat :=
  s.data.foldr (fun c acc => utf8EncodeCodepoint c.toNat ++ acc) []

/-- ASCII alphanumeric test: the `NON_ALPHANUMERIC` ascii-set of the
`url_escape` crate keeps exactly these bytes unescaped. -/
def isAlnumByte (b : Nat) : Prop :=
  (48 ≤ b ∧ b ≤ 57) ∨ (65 ≤ b ∧ b ≤ 90) ∨ (97 ≤ b ∧ b ≤ 122)

instance (b : Nat) : Decidable (isAlnumByte b) :=
  inferInstanceAs (Decidable ((48 ≤ b ∧ b ≤ 57) ∨ (65 ≤ b ∧ b ≤ 90) ∨ (97 ≤ b ∧ b ≤ 122)))

/-- Upper-case hex digit of a value below 16 (the `percent_encoding` crate
emits upper-case escapes). -/
def hexUpper (d : Nat) : Nat :=
  if d < 10 then 48 + d else 55 + d

/-- Value of an ASCII hex digit; `none` on non-hex bytes.  Decoding accepts
both cases. -/
def hexVal (c : Nat) : Option Nat :=
  if 48 ≤ c ∧ c ≤ 57 then some (c - 48)
  else if 65 ≤ c ∧ c ≤ 70 then some (c - 55)
  else if 97 ≤ c ∧ c ≤ 102 then some (c - 87)
  else none

/-- `url_escape::encode(_, NON_ALPHANUMERIC)`: every byte that is not ASCII
alphanumeric becomes a `%XX` escape. -/
def percentEncode : List Nat → List Nat
  | [] => []
  | b :: rest =>
    (if isAlnumByte b then [b] else [37, hexUpper (b / 16), hexUpper (b % 16)]) ++
      percentEncode rest

/-- Fuel-indexed percent-decoding step function; fuel at least the list length
makes it total over the input (every step consumes at least one byte). -/
def percentDecodeAux : Nat → List Nat → List Nat
  | _, [] => []
  | 0, b :: rest => b :: rest
  | fuel + 1, b :: rest =>
    if b = 37 then
      match rest with
      | a :: c :: rest2 =>
        match hexVal a, hexVal c with
        | some ha, some hc => (ha * 16 + hc) :: percentDecodeAux fuel rest2
        | _, _ => 37 :: percentDecodeAux fuel (a :: c :: rest2)
      | _ => 37 :: percentDecodeAux fuel rest
    else b :: percentDecodeAux fuel rest

/-- Percent-decoding as in the `percent_encoding` crate: a `%` followed by two
hex digits yields that byte; otherwise the `%` is passed through unchanged and
decoding resumes at the following byte. -/
def percentDecode (bs : List Nat) : List Nat := percentDecodeAux bs.length bs

/-- Continuation-byte test for UTF-8 (`0x80..=0xBF`). -/
def isCont (b : Nat) : Prop := 128 ≤ b ∧ b ≤ 191

instance (b : Nat) : Decidable (isCont b) :=
  inferInstanceAs (Decidable (128 ≤ b ∧ b ≤ 191))

/-- Take one well-formed UTF-8 scalar sequence off the front of a byte list,
per the table used by Rust's `core::str` validator (rejecting overlong
encodings and surrogates). -/
def takeUtf8Seq : List Nat → Option (List Nat × List Nat)
  | [] => none
  | b0 :: r0 =>
    if b0 < 128 then some ([b0], r0)
    else
      match r0 with
      | [] => none
      | b1 :: r1 =>
        if 194 ≤ b0 ∧ b0 ≤ 223 ∧ isCont b1 then some ([b0, b1], r1)
        else
          match r1 with
          | [] => none
          | b2 :: r2 =>
            if ((b0 = 224 ∧ 160 ≤ b1 ∧ b1 ≤ 191) ∨
                ((225 ≤ b0 ∧ b0 ≤ 236) ∨ b0 = 238 ∨ b0 = 239) ∧ isCont b1 ∨
                (b0 = 237 ∧ 128 ≤ b1 ∧ b1 ≤ 159)) ∧ isCont b2 then
              some ([b0, b1, b2], r2)
            else
              match r2 with
              | [] => none
              | b3 :: r3 =>
                if ((b0 = 240 ∧ 144 ≤ b1 ∧ b1 ≤ 191) ∨
                    (241 ≤ b0 ∧ b0 ≤ 243) ∧ isCont b1 ∨
                    (b0 = 244 ∧ 128 ≤ b1 ∧ b1 ≤ 143)) ∧ isCont b2 ∧ isCont b3 then
                  some ([b0, b1, b2, b3], r3)
                else none

/-- Fuel-indexed UTF-8 validity check; fuel at least the list length makes it
total over the input. -/
def isValidUtf8Aux : Nat → List Nat → Bool
  | _, [] => true
  | 0, _ :: _ => false
  | fuel + 1, b :: rest =>
    match takeUtf8Seq (b :: rest) with
    | some (_, rest2) => isValidUtf8Aux fuel rest2
    | none => false

/-- A byte list is valid UTF-8 (`OsStr::to_str` succeeds exactly here). -/
def isValidUtf8 (bs : List Nat) : Bool := isValidUtf8Aux bs.length bs

/-- Fuel-indexed lossy UTF-8 decoding: invalid positions are replaced by the
bytes of U+FFFD, as in `String::from_utf8_lossy`. -/
def utf8LossyAux : Nat → List Nat → List Nat
  | _, [] => []
  | 0, _ :: _ => []
  | fuel + 1, b :: rest =>
    match takeUtf8Seq (b :: rest) with
    | some (seq, rest2) => seq ++ utf8LossyAux fuel rest2
    | none => 239 :: 191 :: 189 :: utf8LossyAux fuel rest

/-- Lossy UTF-8 decoding of a byte list. -/
def utf8Lossy (bs : List Nat) : List Nat := utf8LossyAux bs.length bs

/-- `url_escape::decode`: percent-decode, then lossy UTF-8 conversion
(`decode_utf8_lossy`). -/
def urlDecode (bs : List Nat) : List Nat := utf8Lossy (percentDecode bs)

/-- A node of the (static, symlink-free) filesystem tree: a regular file with
its contents and a readability flag (open/read succeed only when readable), a
directory with its entries in enumeration order, or an entry that is neither a
regular file nor a directory (e.g. a special device). -/
inductive FsNode where
  | file (contents : List Nat) (readable : Bool)
  | dir (entries : List (List Nat × FsNode))
  | special

/-- Look up an entry by name in a directory's entry list. -/
def findEntry (name : List Nat) : List (List Nat × FsNode) → Option FsNode
  | [] => none
  | (n, node) :: rest => if n = name then some node else findEntry name rest

/-- Look up the node at an absolute component path under a root node. -/
def FsNode.lookup : FsNode → List (List Nat) → Option FsNode
  | node, [] => some node
  | FsNode.dir entries, name :: rest =>
    match findEntry name entries with
    | some child => FsNode.lookup child rest
    | none => none
  | FsNode.file _ _, _ :: _ => none
  | FsNode.special, _ :: _ => none

/-- OS-style path resolution (`Path::canonicalize` on a symlink-free tree):
`.` and empty components are skipped, `..` moves to the parent (the root is its
own parent), and every other component must exist in the tree. -/
def canonicalizeAux (fs : FsNode) : List (List Nat) → List (List Nat) → Option (List (List Nat))
  | acc, [] => if (FsNode.lookup fs acc).isSome then some acc else none
  | acc, c :: cs =>
    if c = [] ∨ c = [46] then canonicalizeAux fs acc cs
    else if c = [46, 46] then canonicalizeAux fs acc.dropLast cs
    else if (FsNode.lookup fs (acc ++ [c])).isSome then canonicalizeAux fs (acc ++ [c]) cs
    else none

/-- Canonical form of an absolute path, or `none` when canonicalization fails
(the path has no existing target). -/
def resolvePath (fs : FsNode) (comps : List (List Nat)) : Option (List (List Nat)) :=
  canonicalizeAux fs [] comps

/-- The node an absolute path denotes after OS resolution (`exists`, `is_file`,
`is_dir`, `File::open` and `read_dir` all resolve the raw path against the same
static tree, i.e. look up its canonical form). -/
def resolveNode (fs : FsNode) (comps : List (List Nat)) : Option FsNode :=
  match resolvePath fs comps with
  | some p => FsNode.lookup fs p
  | none => none

/-- Split a path string's bytes on `/` separators into raw components. -/
def splitSlashAux : List Nat → List Nat → List (List Nat)
  | cur, [] => [cur.reverse]
  | cur, 47 :: rest => cur.reverse :: splitSlashAux [] rest
  | cur, b :: rest => splitSlashAux (b :: cur) rest

/-- Components of a relative path string (empty components are kept here and
ignored by resolution, as the OS does). -/
def splitSlash (bs : List Nat) : List (List Nat) := splitSlashAux [] bs

/-- `str::trim_start_matches('/')`: strip every leading slash. -/
def trimSlashes : List Nat → List Nat
  | 47 :: rest => trimSlashes rest
  | bs => bs

/-- Component normalization performed by `Path::components`: empty and `.`
components disappear (while `..` is kept). -/
def normComps (comps : List (List Nat)) : List (List Nat) :=
  comps.filter (fun c => ¬(c = [] ∨ c = [46]))

/-- `new_path.parent().unwrap_or(&rootcwd)` at the component level: drop the
last normalized component; a path with no parent falls back to `rootcwd`. -/
def pathParent (comps rootcwd : List (List Nat)) : List (List Nat) :=
  if normComps comps = [] then rootcwd else (normComps comps).dropLast

/-- Byte string of an absolute path (leading `/` before each component), the
form `Path::to_str` exposes. -/
def pathStr (comps : List (List Nat)) : List Nat :=
  comps.foldl (fun acc c => acc ++ 47 :: c) []

/-- `to_str().unwrap_or("")`: a path renders to its bytes when they are valid
UTF-8 and to the empty string otherwise. -/
def osToStrOrEmpty (bs : List Nat) : List Nat :=
  if isValidUtf8 bs then bs else []

/-- `to_unix_style`: replace every backslash byte with a forward slash. -/
def toUnixStyle (bs : List Nat) : List Nat :=
  bs.map (fun b => if b = 92 then 47 else b)

/-- Modelled from the spec: the protocol version tag carried by requests and
responses (`Version` lives in `src/http/request.rs`, absent from the sources);
the spec's wire format writes it as `HTTP/1.1`. -/
inductive Version where
  | V1_0
  | V1_1
deriving DecidableEq

/-- Modelled from the spec: the request-parsing collaborator produces a
URL-encoded resource path and a protocol version tag (`HttpRequest` lives in
`src/http/request.rs`, absent from the sources). -/
structure HttpRequest where
  path : List Nat
  version : Version

/-- Response status: exactly `OK` and `NotFound` are modeled. -/
inductive ResponseStatus where
  | OK
  | NotFound
deriving DecidableEq

/-- Range-support declaration: `Bytes` for files, `None` otherwise. -/
inductive AcceptRanges where
  | Bytes
  | None
deriving DecidableEq

/-- The result object of response construction, mirroring the Rust struct
field for field (byte buffers as `List Nat`). -/
structure HttpResponse where
  version : Version
  status : ResponseStatus
  content_length : Nat
  accept_ranges : AcceptRanges
  response_body : List Nat
  current_path : List Nat
  content_type : List Nat

/-- Kinds of `io::Error` the pipeline can propagate. -/
inductive IoErrorKind where
  | notFound
  | permissionDenied
deriving DecidableEq

/-- Outcome of a failed construction: a propagated I/O error (`io::Result`'s
`Err`), or a Rust panic (which aborts instead of returning). -/
inductive RunError where
  | io (kind : IoErrorKind)
  | panicked
deriving DecidableEq

/-- `Display` text of a version (from the spec's wire format). -/
def versionBytes : Version → List Nat
  | Version.V1_0 => strBytes "HTTP/1.0"
  | Version.V1_1 => strBytes "HTTP/1.1"

/-- `Display` text of a status, code and reason phrase together. -/
def statusBytes : ResponseStatus → List Nat
  | ResponseStatus.OK => strBytes "200 OK"
  | ResponseStatus.NotFound => strBytes "404 NOT FOUND"

/-- `Display` text of the accept-ranges declaration line. -/
def acceptRangesBytes : AcceptRanges → List Nat
  | AcceptRanges.Bytes => strBytes "accept-ranges: bytes"
  | AcceptRanges.None => strBytes "accept-ranges: none"

/-- Decimal digits of a number, fuel-indexed (fuel `n + 1` suffices). -/
def natToDecimalAux : Nat → Nat → List Nat → List Nat
  | 0, _, acc => acc
  | fuel + 1, n, acc =>
    if n < 10 then (48 + n % 10) :: acc
    else natToDecimalAux fuel (n / 10) ((48 + n % 10) :: acc)

/-- ASCII decimal rendering of a number, as `format!` produces it. -/
def natToDecimal (n : Nat) : List Nat := natToDecimalAux (n + 1) n []

/-- The header block before the `\r\n\r\n` separator, per the format string
`"{} {}\n{}\ncontent-type: {}\ncontent-length: {}"`. -/
def headerPre (v : Version) (s : ResponseStatus) (ar : AcceptRanges)
    (ct : List Nat) (cl : Nat) : List Nat :=
  versionBytes v ++ [32] ++ statusBytes s ++ [10] ++ acceptRangesBytes ar ++ [10] ++
    strBytes "content-type: " ++ ct ++ [10] ++ strBytes "content-length: " ++ natToDecimal cl

/-- The full serialized header including the `\r\n\r\n` header/body separator,
shared by all three body builders. -/
def fmtHeader (v : Version) (s : ResponseStatus) (ar : AcceptRanges)
    (ct : List Nat) (cl : Nat) : List Nat :=
  headerPre v s ar ct cl ++ [13, 10, 13, 10]

/-- Content sniffing of the external `infer` crate: match the file's leading
bytes against known magic signatures (representative rows of its table). -/
def inferMime (bs : List Nat) : Option (List Nat) :=
  if List.isPrefixOf [137, 80, 78, 71, 13, 10, 26, 10] bs then some (strBytes "image/png")
  else if List.isPrefixOf [255, 216, 255] bs then some (strBytes "image/jpeg")
  else if List.isPrefixOf [71, 73, 70, 56] bs then some (strBytes "image/gif")
  else if List.isPrefixOf [37, 80, 68, 70] bs then some (strBytes "application/pdf")
  else if List.isPrefixOf [80, 75, 3, 4] bs then some (strBytes "application/zip")
  else none

/-- The fixed 404 page exactly as the source's string literal spells it
(leading newline, sixteen spaces of indentation per line). -/
def notFoundDoc : List Nat :=
  strBytes "\n                <html>\n                <body>\n                <h1>404 NOT FOUND</h1>\n                </body>\n                </html>"

/-- The directory-listing loop body: one `<li>` per entry, href the
percent-encoded `{current_path}/{name}`, text the raw name bytes;
`OsStr::to_str().expect("invalid unicode")` panics on a non-UTF-8 name. -/
def listItems (current_path : List Nat) : List (List Nat × FsNode) → Except RunError (List Nat)
  | [] => Except.ok []
  | (name, _) :: rest =>
    if isValidUtf8 name then
      match listItems current_path rest with
      | Except.ok tail =>
        Except.ok (strBytes "<li><a href=\"" ++ percentEncode (current_path ++ 47 :: name) ++
          strBytes "\">" ++ name ++ strBytes "</a></li>" ++ tail)
      | Except.error e => Except.error e
    else Except.error RunError.panicked

/-- The server's environment: the filesystem tree rooted at `/` and the
component path of the process's working directory (the served root). -/
structure ServerEnv where
  fs : FsNode
  cwd : List (List Nat)

/-- `rootcwd.join(trimmed_path)`: the raw (non-canonical) target path the
responder operates on. -/
def newPath (env : ServerEnv) (request : HttpRequest) : List (List Nat) :=
  env.cwd ++ splitSlash (trimSlashes (urlDecode request.path))

/-- `HttpResponse::new`: percent-decode the request path, join it under the
working directory, canonicalize, classify (file / directory / other /
absent), build the body, and assemble header plus body into one buffer. -/
def HttpResponse.new (env : ServerEnv) (request : HttpRequest) : Except RunError HttpResponse :=
  let version := Version.V1_1
  let current_path := urlDecode request.path
  let new_path := newPath env request
  match resolvePath env.fs env.cwd with
  | none => Except.error (RunError.io IoErrorKind.notFound)
  | some rootcwd_canonical =>
    match resolvePath env.fs new_path with
    | none => Except.error (RunError.io IoErrorKind.notFound)
    | some new_path_canonical =>
      match FsNode.lookup env.fs new_path_canonical with
      | some (FsNode.file contents readable) =>
        if readable then
          let content_type :=
            match inferMime contents with
            | some mime => mime
            | none => strBytes "text/plain"
          Except.ok ⟨version, ResponseStatus.OK, contents.length, AcceptRanges.Bytes,
            fmtHeader version ResponseStatus.OK AcceptRanges.Bytes content_type contents.length ++
              contents,
            current_path, content_type⟩
        else Except.error (RunError.io IoErrorKind.permissionDenied)
      | some (FsNode.dir entries) =>
        match listItems current_path entries with
        | Except.error e => Except.error e
        | Except.ok items =>
          let listing :=
            strBytes "<html><head><meta charset=\"utf-8\"/></head><body>" ++
              strBytes "<h1>Directory Listing</h1>" ++
              strBytes "<p>Current directory: " ++
              toUnixStyle (osToStrOrEmpty (pathStr new_path)) ++
              strBytes "</p>" ++
              (if rootcwd_canonical ≠ new_path_canonical then
                strBytes "<p><a href=\"" ++
                  percentEncode (osToStrOrEmpty (pathStr (pathParent new_path env.cwd))) ++
                  strBytes "\">Up One Level</a></p>"
              else []) ++
              strBytes "<ul>" ++ items ++ strBytes "</ul></body></html>"
          Except.ok ⟨version, ResponseStatus.OK, listing.length, AcceptRanges.None,
            fmtHeader version ResponseStatus.OK AcceptRanges.None (strBytes "text/html")
              listing.length ++ listing,
            current_path, strBytes "text/html"⟩
      | some FsNode.special =>
        Except.ok ⟨version, ResponseStatus.NotFound, notFoundDoc.length, AcceptRanges.None,
          fmtHeader version ResponseStatus.NotFound AcceptRanges.None (strBytes "text/html")
            notFoundDoc.length ++ notFoundDoc,
          current_path, strBytes "text/html"⟩
      | none =>
        Except.ok ⟨version, ResponseStatus.NotFound, 0, AcceptRanges.None, [],
          current_path, strBytes "text/html"⟩

/-- Body portion of a serialized buffer: everything after the first
`\r\n\r\n`; the whole buffer has no such separator only in the degenerate
empty case, where the result is empty. -/
def dropThroughSep : List Nat → List Nat
  | [] => []
  | b :: rest =>
    if b = 13 then
      match rest with
      | 10 :: 13 :: 10 :: rest2 => rest2
      | _ => dropThroughSep rest
    else dropThroughSep rest

/-- Extract the response from a successful construction (used to state closed
facts about concrete runs). -/
def extractOk (e : Except RunError HttpResponse) (d : HttpResponse) : HttpResponse :=
  match e with
  | Except.ok r => r
  | Except.error _ => d

/-- Placeholder response for `extractOk` on the error side. -/
def defaultResponse : HttpResponse :=
  ⟨Version.V1_1, ResponseStatus.NotFound, 0, AcceptRanges.None, [], [], []⟩

/-- Entries of the `sub` subdirectory of the sample tree. -/
def subEntries : List (List Nat × FsNode) :=
  [(strBytes "a.txt", FsNode.file (strBytes "aa") true)]

/-- Entries of the sample served root `site`: a readable file, a
subdirectory, an unreadable file, a special entry, and a file whose name
contains a malformed percent sequence. -/
def siteEntries : List (List Nat × FsNode) :=
  [(strBytes "index.html", FsNode.file (strBytes "hello") true),
   (strBytes "sub", FsNode.dir subEntries),
   (strBytes "locked.bin", FsNode.file [0, 1, 2] false),
   (strBytes "dev0", FsNode.special),
   (strBytes "%zz", FsNode.file (strBytes "pct") true)]

/-- Sample filesystem: the served root `site` under `/`. -/
def fsW : FsNode := FsNode.dir [(strBytes "site", FsNode.dir siteEntries)]

/-- Sample environment: working directory `/site` over `fsW`. -/
def envW : ServerEnv := ⟨fsW, [strBytes "site"]⟩

/-- Request for `/index.html`. -/
def reqIndex : HttpRequest := ⟨strBytes "/index.html", Version.V1_1⟩

/-- Request for the root path `/`. -/
def reqRoot : HttpRequest := ⟨strBytes "/", Version.V1_1⟩

/-- Request for the subdirectory `/sub`. -/
def reqSub : HttpRequest := ⟨strBytes "/sub", Version.V1_1⟩

/-- Request for the unreadable file `/locked.bin`. -/
def reqLocked : HttpRequest := ⟨strBytes "/locked.bin", Version.V1_1⟩

/-- Request for a path with no filesystem entry. -/
def reqMissing : HttpRequest := ⟨strBytes "/missing-file.txt", Version.V1_1⟩

/-- Request whose path carries a malformed percent escape that decodes
through unchanged and names an existing file. -/
def reqPct : HttpRequest := ⟨strBytes "/%zz", Version.V1_1⟩

/-- Filesystem for the traversal run: the served root `root` and a file
`secret.txt` that lies outside it. -/
def fsEscape : FsNode :=
  FsNode.dir [(strBytes "root", FsNode.dir [(strBytes "index.html", FsNode.file (strBytes "hi") true)]),
    (strBytes "secret.txt", FsNode.file (strBytes "top secret") true)]

/-- Environment whose working directory is `/root` over `fsEscape`. -/
def envEscape : ServerEnv := ⟨fsEscape, [strBytes "root"]⟩

/-- Request that climbs out of the served root with a `..` segment. -/
def reqEscape : HttpRequest := ⟨strBytes "/../secret.txt", Version.V1_1⟩

/-- A directory whose single entry has a non-UTF-8 name (the lone byte
`0xFF`). -/
def badEntries : List (List Nat × FsNode) := [([255], FsNode.file [] true)]

/-- Filesystem containing the directory `d` with the non-UTF-8 entry. -/
def fsBad : FsNode := FsNode.dir [(strBytes "d", FsNode.dir badEntries)]

/-- Environment whose working directory is the root of `fsBad`. -/
def envBad : ServerEnv := ⟨fsBad, []⟩

/-- Request for the directory holding the non-UTF-8 entry name. -/
def reqBadDir : HttpRequest := ⟨strBytes "/d", Version.V1_1⟩

lemma hexVal_hexUpper (d : Nat) (h : d < 16) : hexVal (hexUpper d) = some d := by
  interval_cases d <;> decide

lemma percentEncode_alnum (b : Nat) (rest : List Nat) (hb : isAlnumByte b) :
    percentEncode (b :: rest) = b :: percentEncode rest := by
  simp [percentEncode, hb]

lemma percentEncode_escape (b : Nat) (rest : List Nat) (hb : ¬ isAlnumByte b) :
    percentEncode (b :: rest) = 37 :: hexUpper (b / 16) :: hexUpper (b % 16) :: percentEncode rest := by
  simp [percentEncode, hb]

lemma percentDecodeAux_encode (bs : List Nat) : ∀ fuel : Nat,
    (percentEncode bs).length ≤ fuel → (∀ b ∈ bs, b < 256) →
    percentDecodeAux fuel (percentEncode bs) = bs := by
  induction bs with
  | nil => intro fuel _ _; simp [percentEncode, percentDecodeAux]
  | cons b rest ih =>
    intro fuel hlen h256
    by_cases hb : isAlnumByte b
    · rw [percentEncode_alnum b rest hb] at hlen ⊢
      cases fuel with
      | zero => simp at hlen
      | succ f =>
        have hb37 : ¬ b = 37 := by
          rcases hb with ⟨_, _⟩ | ⟨_, _⟩ | ⟨_, _⟩ <;> omega
        simp only [percentDecodeAux, if_neg hb37]
        rw [ih f (by simp at hlen; omega) (fun x hx => h256 x (List.mem_cons_of_mem _ hx))]
    · rw [percentEncode_escape b rest hb] at hlen ⊢
      cases fuel with
      | zero => simp at hlen
      | succ f =>
        have hb256 : b < 256 := h256 b (List.mem_cons_self _ _)
        have key : percentDecodeAux (f + 1)
            (37 :: hexUpper (b / 16) :: hexUpper (b % 16) :: percentEncode rest) =
            b :: percentDecodeAux f (percentEncode rest) := by
          simp only [percentDecodeAux, if_pos rfl]
          rw [hexVal_hexUpper (b / 16) (by omega), hexVal_hexUpper (b % 16) (by omega)]
          dsimp only
          have hbid : b / 16 * 16 + b % 16 = b := by omega
          rw [hbid]
          simp
        rw [key, ih f (by simp at hlen; omega) (fun x hx => h256 x (List.mem_cons_of_mem _ hx))]

lemma percent_roundtrip (bs : List Nat) (h256 : ∀ b ∈ bs, b < 256) :
    percentDecode (percentEncode bs) = bs :=
  percentDecodeAux_encode bs _ le_rfl h256

lemma takeUtf8Seq_sound (bs seq rest : List Nat) (h : takeUtf8Seq bs = some (seq, rest)) :
    bs = seq ++ rest ∧ seq ≠ [] ∧ ∀ b ∈ seq, b < 256 := by
  cases bs with
  | nil => exact Option.noConfusion h
  | cons b0 r0 =>
    unfold takeUtf8Seq at h
    dsimp only at h
    by_cases h0 : b0 < 128
    · rw [if_pos h0] at h
      injection h with h
      injection h with hA hB
      subst hA; subst hB
      refine ⟨rfl, by simp, ?_⟩
      intro x hx; simp at hx; subst hx; omega
    · rw [if_neg h0] at h
      cases r0 with
      | nil => exact Option.noConfusion h
      | cons b1 r1 =>
        dsimp only at h
        by_cases h1 : 194 ≤ b0 ∧ b0 ≤ 223 ∧ isCont b1
        · rw [if_pos h1] at h
          injection h with h
          injection h with hA hB
          subst hA; subst hB
          simp only [isCont] at h1
          refine ⟨rfl, by simp, ?_⟩
          intro x hx; simp at hx; rcases hx with rfl | rfl <;> omega
        · rw [if_neg h1] at h
          cases r1 with
          | nil => exact Option.noConfusion h
          | cons b2 r2 =>
            dsimp only at h
            by_cases h2 : ((b0 = 224 ∧ 160 ≤ b1 ∧ b1 ≤ 191) ∨
                ((225 ≤ b0 ∧ b0 ≤ 236) ∨ b0 = 238 ∨ b0 = 239) ∧ isCont b1 ∨
                (b0 = 237 ∧ 128 ≤ b1 ∧ b1 ≤ 159)) ∧ isCont b2
            · rw [if_pos h2] at h
              injection h with h
              injection h with hA hB
              subst hA; subst hB
              simp only [isCont] at h2
              refine ⟨rfl, by simp, ?_⟩
              intro x hx; simp at hx; rcases hx with rfl | rfl | rfl <;> omega
            · rw [if_neg h2] at h
              cases r2 with
              | nil => exact Option.noConfusion h
              | cons b3 r3 =>
                dsimp only at h
                by_cases h3 : ((b0 = 240 ∧ 144 ≤ b1 ∧ b1 ≤ 191) ∨
                    (241 ≤ b0 ∧ b0 ≤ 243) ∧ isCont b1 ∨
                    (b0 = 244 ∧ 128 ≤ b1 ∧ b1 ≤ 143)) ∧ isCont b2 ∧ isCont b3
                · rw [if_pos h3] at h
                  injection h with h
                  injection h with hA hB
                  subst hA; subst hB
                  simp only [isCont] at h3
                  refine ⟨rfl, by simp, ?_⟩
                  intro x hx; simp at hx; rcases hx with rfl | rfl | rfl | rfl <;> omega
                · rw [if_neg h3] at h
                  exact Option.noConfusion h

lemma utf8Valid_lossyAux_eq : ∀ n bs, List.length bs ≤ n → ∀ f1 f2,
    List.length bs ≤ f1 → List.length bs ≤ f2 →
    isValidUtf8Aux f1 bs = true → utf8LossyAux f2 bs = bs := by
  intro n
  induction n with
  | zero =>
    intro bs hb f1 f2 _ _ _
    have hnil : bs = [] := List.eq_nil_of_length_eq_zero (Nat.le_zero.mp hb)
    subst hnil
    cases f2 <;> rfl
  | succ n ih =>
    intro bs hb f1 f2 h1 h2 hv
    cases bs with
    | nil => cases f2 <;> rfl
    | cons b rest =>
      cases f1 with
      | zero => simp at h1
      | succ f1x =>
        cases f2 with
        | zero => simp at h2
        | succ f2x =>
          unfold isValidUtf8Aux at hv
          unfold utf8LossyAux
          cases htake : takeUtf8Seq (b :: rest) with
          | none => rw [htake] at hv; simp at hv
          | some pr =>
            obtain ⟨seq, rest2⟩ := pr
            rw [htake] at hv
            simp only at hv
            simp only [htake]
            obtain ⟨heq, hne, -⟩ := takeUtf8Seq_sound _ _ _ htake
            have hseqpos : 1 ≤ List.length seq := by
              cases seq with
              | nil => exact absurd rfl hne
              | cons _ _ => simp
            have hlen1 : List.length rest2 + 1 ≤ List.length (b :: rest) := by
              rw [heq, List.length_append]; omega
            rw [ih rest2 (by simp at hb hlen1 ⊢; omega) f1x f2x
              (by simp at h1 hlen1 ⊢; omega) (by simp at h2 hlen1 ⊢; omega) hv]
            exact heq.symm

lemma utf8Lossy_valid (bs : List Nat) (h : isValidUtf8 bs = true) : utf8Lossy bs = bs :=
  utf8Valid_lossyAux_eq bs.length bs le_rfl bs.length bs.length le_rfl le_rfl h

lemma utf8Valid_bytes : ∀ n bs, List.length bs ≤ n → ∀ f1, List.length bs ≤ f1 →
    isValidUtf8Aux f1 bs = true → ∀ b ∈ bs, b < 256 := by
  intro n
  induction n with
  | zero =>
    intro bs hb f1 _ _ b hmem
    have hnil : bs = [] := List.eq_nil_of_length_eq_zero (Nat.le_zero.mp hb)
    subst hnil
    simp at hmem
  | succ n ih =>
    intro bs hb f1 h1 hv b hmem
    cases bs with
    | nil => simp at hmem
    | cons b0 rest =>
      cases f1 with
      | zero => simp at h1
      | succ f1x =>
        unfold isValidUtf8Aux at hv
        cases htake : takeUtf8Seq (b0 :: rest) with
        | none => rw [htake] at hv; simp at hv
        | some pr =>
          obtain ⟨seq, rest2⟩ := pr
          rw [htake] at hv
          simp only at hv
          obtain ⟨heq, hne, hbound⟩ := takeUtf8Seq_sound _ _ _ htake
          have hseqpos : 1 ≤ List.length seq := by
            cases seq with
            | nil => exact absurd rfl hne
            | cons _ _ => simp
          have hlen1 : List.length rest2 + 1 ≤ List.length (b0 :: rest) := by
            rw [heq, List.length_append]; omega
          rw [heq] at hmem
          rcases List.mem_append.mp hmem with hm | hm
          · exact hbound b hm
          · exact ih rest2 (by simp at hb hlen1 ⊢; omega) f1x
              (by simp at h1 hlen1 ⊢; omega) hv b hm

lemma isValidUtf8_bytes_lt (bs : List Nat) (h : isValidUtf8 bs = true) : ∀ b ∈ bs, b < 256 :=
  utf8Valid_bytes bs.length bs le_rfl bs.length le_rfl h

lemma natToDecimalAux_digits : ∀ fuel n acc,
    (∀ b ∈ acc, 48 ≤ b ∧ b ≤ 57) → ∀ b ∈ natToDecimalAux fuel n acc, 48 ≤ b ∧ b ≤ 57 := by
  intro fuel
  induction fuel with
  | zero => intro n acc hacc b hb; exact hacc b hb
  | succ f ih =>
    intro n acc hacc b hb
    unfold natToDecimalAux at hb
    by_cases hn : n < 10
    · rw [if_pos hn] at hb
      rcases List.mem_cons.mp hb with rfl | hmem
      · constructor <;> omega
      · exact hacc b hmem
    · rw [if_neg hn] at hb
      refine ih (n / 10) _ ?_ b hb
      intro x hx
      rcases List.mem_cons.mp hx with rfl | hmem
      · constructor <;> omega
      · exact hacc x hmem

lemma natToDecimal_no_cr (n : Nat) : 13 ∉ natToDecimal n := by
  intro hmem
  have := natToDecimalAux_digits (n + 1) n [] (by simp) 13 hmem
  omega

lemma versionBytes_no_cr (v : Version) : 13 ∉ versionBytes v := by
  cases v <;> decide

lemma statusBytes_no_cr (s : ResponseStatus) : 13 ∉ statusBytes s := by
  cases s <;> decide

lemma acceptRangesBytes_no_cr (ar : AcceptRanges) : 13 ∉ acceptRangesBytes ar := by
  cases ar <;> decide

lemma headerPre_no_cr (v : Version) (s : ResponseStatus) (ar : AcceptRanges)
    (ct : List Nat) (cl : Nat) (hct : 13 ∉ ct) : 13 ∉ headerPre v s ar ct cl := by
  intro hmem
  unfold headerPre at hmem
  simp only [List.mem_append, or_assoc] at hmem
  rcases hmem with hm | hm | hm | hm | hm | hm | hm | hm | hm | hm | hm
  · exact versionBytes_no_cr v hm
  · simp at hm
  · exact statusBytes_no_cr s hm
  · simp at hm
  · exact acceptRangesBytes_no_cr ar hm
  · simp at hm
  · revert hm; decide
  · exact hct hm
  · simp at hm
  · revert hm; decide
  · exact natToDecimal_no_cr cl hm

lemma dropThroughSep_pre (pre body : List Nat) (hpre : 13 ∉ pre) :
    dropThroughSep (pre ++ 13 :: 10 :: 13 :: 10 :: body) = body := by
  induction pre with
  | nil => rfl
  | cons x xs ih =>
    have hx : ¬ x = 13 := by
      intro hx; subst hx; exact hpre (List.mem_cons_self _ _)
    have hxs : 13 ∉ xs := fun hm => hpre (List.mem_cons_of_mem _ hm)
    simp only [List.cons_append, dropThroughSep, if_neg hx]
    exact ih hxs

lemma dropThroughSep_fmtHeader (v : Version) (s : ResponseStatus) (ar : AcceptRanges)
    (ct : List Nat) (cl : Nat) (body : List Nat) (hct : 13 ∉ ct) :
    dropThroughSep (fmtHeader v s ar ct cl ++ body) = body := by
  unfold fmtHeader
  rw [List.append_assoc]
  exact dropThroughSep_pre _ body (headerPre_no_cr v s ar ct cl hct)

lemma inferMime_no_cr (bs m : List Nat) (h : inferMime bs = some m) : 13 ∉ m := by
  unfold inferMime at h
  split_ifs at h <;>
    first
      | exact Option.noConfusion h
      | (injection h with h; subst h; decide)

lemma canonicalizeAux_lookup (fs : FsNode) : ∀ cs acc p,
    canonicalizeAux fs acc cs = some p → (FsNode.lookup fs p).isSome = true := by
  intro cs
  induction cs with
  | nil =>
    intro acc p h
    unfold canonicalizeAux at h
    by_cases hl : (FsNode.lookup fs acc).isSome = true
    · rw [if_pos hl] at h
      injection h with h
      subst h
      exact hl
    · rw [if_neg hl] at h
      exact Option.noConfusion h
  | cons c cs ih =>
    intro acc p h
    unfold canonicalizeAux at h
    split_ifs at h with hskip hdd hex
    · exact ih acc p h
    · exact ih acc.dropLast p h
    · exact ih (acc ++ [c]) p h

lemma resolvePath_lookup (fs : FsNode) (comps p : List (List Nat))
    (h : resolvePath fs comps = some p) : (FsNode.lookup fs p).isSome = true :=
  canonicalizeAux_lookup fs comps [] p h

lemma listItems_ok (cp : List Nat) : ∀ entries : List (List Nat × FsNode),
    (∀ e ∈ entries, isValidUtf8 e.1 = true) →
    listItems cp entries = Except.ok ((entries.map (fun e =>
      strBytes "<li><a href=\"" ++ percentEncode (cp ++ 47 :: e.1) ++
        strBytes "\">" ++ e.1 ++ strBytes "</a></li>")).flatten) := by
  intro entries
  induction entries with
  | nil => intro _; rfl
  | cons e rest ih =>
    intro hval
    obtain ⟨name, node⟩ := e
    have h1 : isValidUtf8 name = true := hval (name, node) (List.mem_cons_self _ _)
    unfold listItems
    rw [if_pos h1, ih (fun x hx => hval x (List.mem_cons_of_mem _ hx))]
    simp [List.flatten, List.append_assoc]

lemma responseShape (env : ServerEnv) (request : HttpRequest) (resp : HttpResponse)
    (h : HttpResponse.new env request = Except.ok resp) :
    resp.version = Version.V1_1 ∧ 13 ∉ resp.content_type ∧
    ∃ body, resp.response_body =
        fmtHeader resp.version resp.status resp.accept_ranges resp.content_type
          resp.content_length ++ body ∧
      body.length = resp.content_length ∧ dropThroughSep resp.response_body = body := by
  unfold HttpResponse.new at h
  dsimp only at h
  split at h
  · exact Except.noConfusion h
  rename_i rootcwd_canonical hroot
  split at h
  · exact Except.noConfusion h
  rename_i new_path_canonical hpath
  split at h
  case _ contents readable hlook =>
    split at h
    · split at h
      case _ mime hmime =>
        injection h with h
        subst h
        refine ⟨rfl, inferMime_no_cr contents mime hmime, contents, rfl, rfl, ?_⟩
        exact dropThroughSep_fmtHeader _ _ _ _ _ contents (inferMime_no_cr contents mime hmime)
      case _ hmime =>
        injection h with h
        subst h
        refine ⟨rfl, ?_, contents, rfl, rfl, ?_⟩
        · show (13 : Nat) ∉ strBytes "text/plain"
          decide
        · exact dropThroughSep_fmtHeader _ _ _ _ _ contents (by decide)
    · exact Except.noConfusion h
  case _ entries hlook =>
    split at h
    · exact Except.noConfusion h
    rename_i items hitems
    injection h with h
    subst h
    refine ⟨rfl, ?_, _, rfl, rfl, ?_⟩
    · show (13 : Nat) ∉ strBytes "text/html"
      decide
    · exact dropThroughSep_fmtHeader _ _ _ _ _ _ (by decide)
  case _ hlook =>
    injection h with h
    subst h
    refine ⟨rfl, ?_, notFoundDoc, rfl, rfl, ?_⟩
    · show (13 : Nat) ∉ strBytes "text/html"
      decide
    · exact dropThroughSep_fmtHeader _ _ _ _ _ notFoundDoc (by decide)
  case _ hlook =>
    have := resolvePath_lookup env.fs (newPath env request) _ (by assumption)
    rw [hlook] at this
    simp at this

/-- C3: for every returned `HttpResponse`, whichever builder produced it, the
`content_length` field equals the exact number of bytes in the body portion of
`response_body` (the bytes after the `\r\n\r\n` header/body separator). -/
theorem claimC3_content_length_matches_body (env : ServerEnv) (request : HttpRequest)
    (resp : HttpResponse) (h : HttpResponse.new env request = Except.ok resp) :
    resp.content_length = (dropThroughSep resp.response_body).length := by
  obtain ⟨-, -, body, -, hlen, hdrop⟩ := responseShape env request resp h
  rw [hdrop, hlen]

/-- C4: every constructed response serializes as status line, `\n`,
accept-ranges line, `\n`, content-type line, `\n`, content-length line, then
`\r\n\r\n`, then the raw body bytes — bare `\n` between header fields and
`\r\n\r\n` only as the header/body separator. -/
theorem claimC4_wire_format (env : ServerEnv) (request : HttpRequest)
    (resp : HttpResponse) (h : HttpResponse.new env request = Except.ok resp) :
    ∃ body, resp.response_body =
      versionBytes resp.version ++ [32] ++ statusBytes resp.status ++ [10] ++
      acceptRangesBytes resp.accept_ranges ++ [10] ++
      strBytes "content-type: " ++ resp.content_type ++ [10] ++
      strBytes "content-length: " ++ natToDecimal resp.content_length ++
      [13, 10, 13, 10] ++ body := by
  obtain ⟨-, -, body, hbody, -, -⟩ := responseShape env request resp h
  refine ⟨body, ?_⟩
  rw [hbody]
  simp [fmtHeader, headerPre, List.append_assoc]

/-- C5: for every existing, readable regular file reachable from the request
path (in an environment whose working directory canonicalizes), construction
succeeds with status 200 OK, accept-ranges bytes, `content_length` equal to
the file's exact byte size, and a body byte-identical to its contents. -/
theorem claimC5_file_served (env : ServerEnv) (request : HttpRequest)
    (contents : List Nat) (rc npc : List (List Nat))
    (hroot : resolvePath env.fs env.cwd = some rc)
    (hpath : resolvePath env.fs (newPath env request) = some npc)
    (hfile : FsNode.lookup env.fs npc = some (FsNode.file contents true)) :
    ∃ resp, HttpResponse.new env request = Except.ok resp ∧
      resp.status = ResponseStatus.OK ∧
      resp.accept_ranges = AcceptRanges.Bytes ∧
      resp.content_length = contents.length ∧
      dropThroughSep resp.response_body = contents := by
  unfold HttpResponse.new
  dsimp only
  rw [hroot, hpath]
  dsimp only
  rw [hfile]
  dsimp only
  cases hm : inferMime contents with
  | some mime =>
    simp only [hm]
    exact ⟨_, rfl, rfl, rfl, rfl,
      dropThroughSep_fmtHeader _ _ _ _ _ contents (inferMime_no_cr contents mime hm)⟩
  | none =>
    simp only [hm]
    exact ⟨_, rfl, rfl, rfl, rfl,
      dropThroughSep_fmtHeader _ _ _ _ _ contents (by decide)⟩

/-- C6: for every directory resolved from a request (whose entry names are
valid UTF-8, so the loop does not panic), the generated listing body is the
boilerplate, the current-directory paragraph, an "Up One Level" link present
if and only if the directory's canonical path differs from the canonical
served root, and exactly one `<li>` fragment per directory entry, in order. -/
theorem claimC6_directory_listing (env : ServerEnv) (request : HttpRequest)
    (entries : List (List Nat × FsNode)) (rc npc : List (List Nat))
    (hroot : resolvePath env.fs env.cwd = some rc)
    (hpath : resolvePath env.fs (newPath env request) = some npc)
    (hdir : FsNode.lookup env.fs npc = some (FsNode.dir entries))
    (hnames : ∀ e ∈ entries, isValidUtf8 e.1 = true) :
    ∃ resp, HttpResponse.new env request = Except.ok resp ∧
      dropThroughSep resp.response_body =
        strBytes "<html><head><meta charset=\"utf-8\"/></head><body>" ++
        strBytes "<h1>Directory Listing</h1>" ++
        strBytes "<p>Current directory: " ++
        toUnixStyle (osToStrOrEmpty (pathStr (newPath env request))) ++
        strBytes "</p>" ++
        (if rc ≠ npc then
          strBytes "<p><a href=\"" ++
            percentEncode (osToStrOrEmpty (pathStr (pathParent (newPath env request) env.cwd))) ++
            strBytes "\">Up One Level</a></p>"
        else []) ++
        strBytes "<ul>" ++
        ((entries.map (fun e =>
          strBytes "<li><a href=\"" ++ percentEncode (urlDecode request.path ++ 47 :: e.1) ++
            strBytes "\">" ++ e.1 ++ strBytes "</a></li>")).flatten) ++
        strBytes "</ul></body></html>" := by
  unfold HttpResponse.new
  dsimp only
  rw [hroot, hpath]
  dsimp only
  rw [hdir]
  dsimp only
  rw [listItems_ok (urlDecode request.path) entries hnames]
  dsimp only
  exact ⟨_, rfl, dropThroughSep_fmtHeader _ _ _ _ _ _ (by decide)⟩

/-- C8: a target classified as an existing regular file that cannot be opened
or read (permissions) makes construction propagate the I/O error to the
caller as a hard failure instead of converting it into a 404 response. -/
theorem claimC8_unreadable_file_propagates (env : ServerEnv) (request : HttpRequest)
    (contents : List Nat) (rc npc : List (List Nat))
    (hroot : resolvePath env.fs env.cwd = some rc)
    (hpath : resolvePath env.fs (newPath env request) = some npc)
    (hfile : FsNode.lookup env.fs npc = some (FsNode.file contents false)) :
    HttpResponse.new env request = Except.error (RunError.io IoErrorKind.permissionDenied) := by
  unfold HttpResponse.new
  dsimp only
  rw [hroot, hpath]
  dsimp only
  rw [hfile]
  rfl

/-- C9: percent-encoding any valid UTF-8 name (every non-alphanumeric byte
escaped) and percent-decoding the result — the encode/decode pair used for
hrefs and path decoding — yields the original name. -/
theorem claimC9_percent_roundtrip (name : List Nat) (h : isValidUtf8 name = true) :
    urlDecode (percentEncode name) = name := by
  unfold urlDecode
  rw [percent_roundtrip name (isValidUtf8_bytes_lt name h)]
  exact utf8Lossy_valid name h

/-- C10: the constructed response's version field is always HTTP/1.1, the
status line starts with the bytes `HTTP/1.1`, and the request's own protocol
version tag has no influence: two requests differing only in version produce
identical results. -/
theorem claimC10_version_fixed (env : ServerEnv) (p : List Nat) (v v2 : Version)
    (resp : HttpResponse) (h : HttpResponse.new env ⟨p, v⟩ = Except.ok resp) :
    resp.version = Version.V1_1 ∧
    List.IsPrefix (strBytes "HTTP/1.1") resp.response_body ∧
    HttpResponse.new env ⟨p, v⟩ = HttpResponse.new env ⟨p, v2⟩ := by
  obtain ⟨hv, -, body, hbody, -, -⟩ := responseShape env ⟨p, v⟩ resp h
  refine ⟨hv, ?_, rfl⟩
  rw [hbody, hv]
  simp only [fmtHeader, headerPre, versionBytes, List.append_assoc]
  exact List.prefix_append _ _

/-- The response constructed for `/index.html` in the sample environment. -/
def respIndex : HttpResponse := extractOk (HttpResponse.new envW reqIndex) defaultResponse

/-- The response constructed for `/` in the sample environment. -/
def respRoot : HttpResponse := extractOk (HttpResponse.new envW reqRoot) defaultResponse

/-- The response constructed for the traversal request `/../secret.txt`. -/
def respEscape : HttpResponse := extractOk (HttpResponse.new envEscape reqEscape) defaultResponse

/-- The response constructed for the malformed-escape request `/%zz`. -/
def respPct : HttpResponse := extractOk (HttpResponse.new envW reqPct) defaultResponse

/-- C1: refuted at a concrete input.  For the request `/../secret.txt` the
canonical target `/secret.txt` lies outside the canonical served root
`/root`, yet construction succeeds with 200 OK and serves that outside
file's bytes: the resolver never compares the canonical target against the
canonical root, so `..` segments escape the working-directory subtree. -/
theorem claimC1_traversal_escape :
    resolvePath envEscape.fs envEscape.cwd = some [strBytes "root"] ∧
    resolvePath envEscape.fs (newPath envEscape reqEscape) = some [strBytes "secret.txt"] ∧
    List.isPrefixOf [strBytes "root"] [strBytes "secret.txt"] = false ∧
    HttpResponse.new envEscape reqEscape = Except.ok respEscape ∧
    respEscape.status = ResponseStatus.OK ∧
    dropThroughSep respEscape.response_body = strBytes "top secret" :=
  ⟨rfl, rfl, rfl, rfl, rfl, rfl⟩

/-- C2: refuted at a concrete input.  For a request whose resolved path has
no existing filesystem entry, `canonicalize()?` fails before the classifier
runs, so construction returns a hard I/O error instead of the fixed 404
document: the 404 branch is reachable only for targets that exist but are
neither regular files nor directories. -/
theorem claimC2_missing_path_hard_error :
    HttpResponse.new envW reqMissing = Except.error (RunError.io IoErrorKind.notFound) :=
  rfl

/-- C7: refuted at a concrete input.  A directory entry whose name is not
valid UTF-8 (the single byte `0xFF`) makes the listing loop's
`to_str().expect("invalid unicode")` panic, aborting construction; by
contrast a malformed percent escape in the request path (`%zz`) is passed
through undecoded and handled without panicking. -/
theorem claimC7_non_utf8_entry_panics :
    HttpResponse.new envBad reqBadDir = Except.error RunError.panicked ∧
    percentDecode (strBytes "/%zz") = strBytes "/%zz" ∧
    isValidUtf8 [255] = false ∧
    HttpResponse.new envW reqPct = Except.ok respPct ∧
    respPct.status = ResponseStatus.OK :=
  ⟨rfl, rfl, rfl, rfl, rfl⟩

/-- Witness for C3 at a concrete run: the file response for `/index.html`. -/
theorem claimC3_witness :
    HttpResponse.new envW reqIndex = Except.ok respIndex ∧
    respIndex.content_length = (dropThroughSep respIndex.response_body).length :=
  ⟨rfl, claimC3_content_length_matches_body envW reqIndex respIndex rfl⟩

/-- Witness for C4 at a concrete run: the directory response for `/`. -/
theorem claimC4_witness :
    HttpResponse.new envW reqRoot = Except.ok respRoot ∧
    ∃ body, respRoot.response_body =
      versionBytes respRoot.version ++ [32] ++ statusBytes respRoot.status ++ [10] ++
      acceptRangesBytes respRoot.accept_ranges ++ [10] ++
      strBytes "content-type: " ++ respRoot.content_type ++ [10] ++
      strBytes "content-length: " ++ natToDecimal respRoot.content_length ++
      [13, 10, 13, 10] ++ body :=
  ⟨rfl, claimC4_wire_format envW reqRoot respRoot rfl⟩

/-- Witness for C5 at a concrete run: serving the file `/index.html`. -/
theorem claimC5_witness :
    resolvePath envW.fs envW.cwd = some [strBytes "site"] ∧
    resolvePath envW.fs (newPath envW reqIndex) = some [strBytes "site", strBytes "index.html"] ∧
    FsNode.lookup envW.fs [strBytes "site", strBytes "index.html"] =
      some (FsNode.file (strBytes "hello") true) ∧
    (∃ resp, HttpResponse.new envW reqIndex = Except.ok resp ∧
      resp.status = ResponseStatus.OK ∧
      resp.accept_ranges = AcceptRanges.Bytes ∧
      resp.content_length = (strBytes "hello").length ∧
      dropThroughSep resp.response_body = strBytes "hello") :=
  ⟨rfl, rfl, rfl, claimC5_file_served envW reqIndex (strBytes "hello")
    [strBytes "site"] [strBytes "site", strBytes "index.html"] rfl rfl rfl⟩

/-- Witness for C6 at a concrete run: listing the subdirectory `/sub`, whose
canonical path differs from the served root, so the up link is present. -/
theorem claimC6_witness :
    resolvePath envW.fs envW.cwd = some [strBytes "site"] ∧
    resolvePath envW.fs (newPath envW reqSub) = some [strBytes "site", strBytes "sub"] ∧
    FsNode.lookup envW.fs [strBytes "site", strBytes "sub"] = some (FsNode.dir subEntries) ∧
    (∀ e ∈ subEntries, isValidUtf8 e.1 = true) ∧
    (∃ resp, HttpResponse.new envW reqSub = Except.ok resp ∧
      dropThroughSep resp.response_body =
        strBytes "<html><head><meta charset=\"utf-8\"/></head><body>" ++
        strBytes "<h1>Directory Listing</h1>" ++
        strBytes "<p>Current directory: " ++
        toUnixStyle (osToStrOrEmpty (pathStr (newPath envW reqSub))) ++
        strBytes "</p>" ++
        (if [strBytes "site"] ≠ [strBytes "site", strBytes "sub"] then
          strBytes "<p><a href=\"" ++
            percentEncode (osToStrOrEmpty (pathStr (pathParent (newPath envW reqSub) envW.cwd))) ++
            strBytes "\">Up One Level</a></p>"
        else []) ++
        strBytes "<ul>" ++
        ((subEntries.map (fun e =>
          strBytes "<li><a href=\"" ++ percentEncode (urlDecode reqSub.path ++ 47 :: e.1) ++
            strBytes "\">" ++ e.1 ++ strBytes "</a></li>")).flatten) ++
        strBytes "</ul></body></html>") :=
  ⟨rfl, rfl, rfl, by decide,
    claimC6_directory_listing envW reqSub subEntries [strBytes "site"]
      [strBytes "site", strBytes "sub"] rfl rfl rfl (by decide)⟩

/-- Witness for C8 at a concrete run: the unreadable file `/locked.bin`. -/
theorem claimC8_witness :
    resolvePath envW.fs envW.cwd = some [strBytes "site"] ∧
    resolvePath envW.fs (newPath envW reqLocked) = some [strBytes "site", strBytes "locked.bin"] ∧
    FsNode.lookup envW.fs [strBytes "site", strBytes "locked.bin"] =
      some (FsNode.file [0, 1, 2] false) ∧
    HttpResponse.new envW reqLocked = Except.error (RunError.io IoErrorKind.permissionDenied) :=
  ⟨rfl, rfl, rfl, claimC8_unreadable_file_propagates envW reqLocked [0, 1, 2]
    [strBytes "site"] [strBytes "site", strBytes "locked.bin"] rfl rfl rfl⟩

/-- Witness for C9 at a concrete name containing ASCII, a two-byte and a
three-byte UTF-8 character. -/
theorem claimC9_witness :
    isValidUtf8 (strBytes "aé☃ b.txt") = true ∧
    urlDecode (percentEncode (strBytes "aé☃ b.txt")) = strBytes "aé☃ b.txt" :=
  ⟨by decide, claimC9_percent_roundtrip (strBytes "aé☃ b.txt") (by decide)⟩

/-- Witness for C10 at a concrete run: the same path requested under
HTTP/1.1 and HTTP/1.0 tags. -/
theorem claimC10_witness :
    HttpResponse.new envW ⟨strBytes "/index.html", Version.V1_1⟩ = Except.ok respIndex ∧
    (respIndex.version = Version.V1_1 ∧
      List.IsPrefix (strBytes "HTTP/1.1") respIndex.response_body ∧
      HttpResponse.new envW ⟨strBytes "/index.html", Version.V1_1⟩ =
        HttpResponse.new envW ⟨strBytes "/index.html", Version.V1_0⟩) :=
  ⟨rfl, claimC10_version_fixed envW (strBytes "/index.html") Version.V1_1 Version.V1_0
    respIndex rfl⟩
